import Mathlib

/-!
# WhatsAround (AlongGPX) — verification of the query-and-match pipeline spec

The repository ships the web/frontend TypeScript sources and documentation;
the backend pipeline (`backend/core/*.py`: gpx_processing, overpass,
filtering, presets, and the Flask job registry in `backend/api/app.py`) is
referenced throughout the docs but its code is not part of the source tree
given here.  Definitions for those components are therefore modelled from
the specification's own words (each such definition says so in its doc
comment); definitions for the frontend validation and GPX parsing are
translated from the TypeScript sources.
-/

namespace WhatsAround

/-! ## Data model: tag rules, filter sets, candidates, findings -/

/-- Modelled from the spec: a TagRule is a (key, value) pair; polarity
(include/exclude) is carried by which `FilterSet` list it sits in. -/
structure TagRule where
  key : String
  value : String
deriving DecidableEq, Repr

/-- Modelled from the spec: an ordered list of include TagRules (order
defines match-rank) and a list of exclude TagRules. -/
structure FilterSet where
  includes : List TagRule
  excludes : List TagRule
deriving DecidableEq, Repr

/-- Modelled from the spec: a Candidate is a raw record returned by the
remote service — a stable external identifier and a free-form tag map.
(The coordinate and optional display attributes play no role in the
dedup/filter claims and are omitted.) -/
structure Candidate where
  id : String
  tags : List (String × String)
deriving DecidableEq, Repr

/-- Modelled from the spec: a Finding is a Candidate that survived
filtering, enriched with the matching TagRule (the first include rule it
matched, by include-list order). -/
structure Finding where
  cand : Candidate
  matchingFilter : TagRule
deriving DecidableEq, Repr

/-- Modelled from the spec: a TagRule `key=value` matches a Candidate if the
Candidate's tag map contains that exact key with that exact value
(case-sensitive, no wildcards). -/
def ruleMatches (r : TagRule) (c : Candidate) : Bool :=
  c.tags.any (fun t => t.1 == r.key && t.2 == r.value)

/-- Modelled from the spec: deduplicate by external identifier across all
batches of the job; first-seen tag content wins.  `seen` accumulates the
identifiers already kept. -/
def dedupeGo (seen : List String) : List Candidate → List Candidate
  | [] => []
  | c :: rest =>
    if c.id ∈ seen then dedupeGo seen rest
    else c :: dedupeGo (c.id :: seen) rest

/-- Modelled from the spec: deduplication entry point (no identifier seen
yet). -/
def dedupeByIdFirst (cs : List Candidate) : List Candidate :=
  dedupeGo [] cs

/-- Modelled from the spec: for one unique Candidate, evaluate include rules
in FilterSet order; retained only if some include rule matches, then
discarded if any exclude rule also matches; `matchingFilter` is the first
include rule that matched. -/
def candidateToFinding (fs : FilterSet) (c : Candidate) : Option Finding :=
  match fs.includes.find? (fun r => ruleMatches r c) with
  | none => none
  | some r =>
    if fs.excludes.any (fun e => ruleMatches e c) then none
    else some ⟨c, r⟩

/-- Modelled from the spec: the Match Engine turns raw Candidates into
Findings — deduplicate by external identifier, then filter each unique
Candidate. -/
def matchEngine (fs : FilterSet) (cs : List Candidate) : List Finding :=
  (dedupeByIdFirst cs).filterMap (candidateToFinding fs)

/-! ## Query Planner -/

/-- Modelled from the spec: walk the track's cumulative distance from
kilometer `d` at `step` increments, emitting one sample point per visited
position strictly before the track end (for `step ≥` track length exactly
one sample is produced, at the start; the tail beyond the last sample is
covered by the final circle's radius). -/
def walkFrom (total step d : ℚ) : List ℚ :=
  if h : 0 < step ∧ d < total then d :: walkFrom total step (d + step) else []
termination_by (⌈(total - d) / step⌉).toNat
decreasing_by
  obtain ⟨hs, hd⟩ := h
  have hx : 0 < total - d := by linarith
  have hq : 0 < (total - d) / step := div_pos hx hs
  have hceil : 0 < ⌈(total - d) / step⌉ := Int.ceil_pos.mpr hq
  have heq : (total - (d + step)) / step = (total - d) / step - 1 := by
    field_simp
    ring
  rw [heq, Int.ceil_sub_one]
  omega

/-- Modelled from the spec: the Query Planner's sample points for a track of
total length `total` km at spacing `step` km; one SearchCircle is emitted per
sample point.  For a single-point (zero-length) track the planner emits
exactly one SearchCircle at that point, so the output is never empty for a
valid Track; otherwise it walks the cumulative distance at `step`
increments. -/
def samplePoints (total step : ℚ) : List ℚ :=
  if total ≤ 0 then [0] else walkFrom total step 0

/-! ## Remote Query Executor and Job Controller -/

/-- Modelled from the spec: a SearchCircle is a track point (lon, lat) plus a
radius in kilometers. -/
structure SearchCircle where
  center : ℚ × ℚ
  radiusKm : ℚ
deriving DecidableEq, Repr

/-- Modelled from the spec: a QueryBatch is an ordered list of SearchCircles
combined into a single remote request. -/
def QueryBatch := List SearchCircle

/-- Modelled from the spec: the observable behavior of one remote endpoint —
given the attempt ordinal and a batch, it either returns raw Candidates or
fails (timeout / server error). -/
def Endpoint := ℕ → QueryBatch → Option (List Candidate)

/-- Modelled from the spec: per batch, try endpoints in rotation beginning at
index `idx` (the starting index rotates per batch to spread load), retrying
the same batch against the next endpoint on failure; give up once the
remaining attempt budget reaches zero. -/
def tryBatch (endpoints : List Endpoint) (b : QueryBatch) :
    ℕ → ℕ → Option (List Candidate)
  | _, 0 => none
  | idx, n + 1 =>
    match endpoints.get? (idx % endpoints.length) with
    | none => none
    | some ep =>
      match ep idx b with
      | some cs => some cs
      | none => tryBatch endpoints b (idx + 1) n

/-- Modelled from the spec: the Job state machine's states. -/
inductive JobState
  | queued
  | processing
  | completed
  | failed
deriving DecidableEq, Repr

/-- Modelled from the spec: the error kinds a failed Job can carry. -/
inductive JobError
  | invalidTrack
  | remoteServiceUnavailable
  | internalFault
deriving DecidableEq, Repr

/-- Modelled from the spec: a snapshot of the unit-of-work aggregate — state,
progress percent (0–100), the eventual Finding list, and an error description
if failed. -/
structure Job where
  state : JobState
  progressPercent : ℕ
  findings : Option (List Finding)
  error : Option JobError
deriving DecidableEq, Repr

/-- Modelled from the spec: sequentially execute the job's remaining batches
(`done` batches already completed out of `total`; `done` also serves as the
per-batch rotation offset and attempt ordinal base), publishing a processing
snapshot after each QueryBatch completes, failing the whole job with
`RemoteServiceUnavailableError` when a batch exhausts its retry budget, and
completing with the Match Engine's Findings when all batches are done.
Returns the published Job snapshots in order. -/
def runLoop (endpoints : List Endpoint) (maxRetries total : ℕ) (fs : FilterSet) :
    List QueryBatch → ℕ → List Candidate → List Job
  | [], _, acc => [⟨.completed, 100, some (matchEngine fs acc), none⟩]
  | b :: rest, done, acc =>
    match tryBatch endpoints b done maxRetries with
    | none => [⟨.failed, done * 100 / total, none, some .remoteServiceUnavailable⟩]
    | some cs =>
      ⟨.processing, (done + 1) * 100 / total, none, none⟩ ::
        runLoop endpoints maxRetries total fs rest (done + 1) (acc ++ cs)

/-- Modelled from the spec: one full pipeline run as the sequence of Job
snapshots published over the Job's lifetime: created `queued`, moved to
`processing` before the first remote query, updated at each QueryBatch
completion, and finished in a terminal state. -/
def runJob (endpoints : List Endpoint) (maxRetries : ℕ) (fs : FilterSet)
    (batches : List QueryBatch) : List Job :=
  ⟨.queued, 0, none, none⟩ :: ⟨.processing, 0, none, none⟩ ::
    runLoop endpoints maxRetries batches.length fs batches 0 []

/-- Modelled from the spec: the allowed Job state transitions —
`queued → processing → completed | failed`, nothing else. -/
def stepOk : JobState → JobState → Bool
  | .queued, .processing => true
  | .processing, .completed => true
  | .processing, .failed => true
  | _, _ => false

/-! ## Frontend filter validation (translated from the TypeScript sources) -/

/-- JavaScript `String.prototype.trim`: strip whitespace from both ends
(operating on the string's character list). -/
def jsTrim (s : List Char) : List Char :=
  ((s.dropWhile (·.isWhitespace)).reverse.dropWhile (·.isWhitespace)).reverse

/-- JavaScript `String.prototype.split` with a one-character separator:
splitting the empty string gives one empty fragment, and each separator
occurrence opens a new fragment. -/
def splitOnChar (sep : Char) : List Char → List (List Char)
  | [] => [[]]
  | a :: rest =>
    match splitOnChar sep rest with
    | [] => [[]]
    | g :: gs => if a = sep then [] :: g :: gs else (a :: g) :: gs

/-- From `addCustom` in the FilterSelectionModal (src/unnamed/part_009): the
custom filter text is trimmed and accepted only when non-empty and containing
the character `=` (JavaScript `if (!val || !val.includes('=')) return`). -/
def addCustomAccepts (custom : String) : Bool :=
  let val := jsTrim custom.data
  !val.isEmpty && val.contains '='

/-- From `handleAddFilter` in src/web/src/components/SettingsForm.tsx: the
`prompt` result is added whenever it is truthy — the prompt was not cancelled
(`none`) and the string is non-empty; no `key=value` format check is
performed. -/
def handleAddFilterAccepts (value : Option String) : Bool :=
  match value with
  | none => false
  | some s => !s.data.isEmpty

/-- The spec's well-formedness predicate on a raw rule string: splitting on
`=` yields exactly the two fragments of one `key=value` pair. -/
def splitsIntoOneKeyValue (s : String) : Bool :=
  (splitOnChar '=' s.data).length == 2

/-! ## Client-side GPX parsing (translated from src/frontend/src/DevApp.tsx) -/

/-- A `trkpt` element as DOMParser exposes it to `parseGPXFile`:
`getAttribute` returns the attribute's string, or null (`none`) when the
attribute is absent. -/
structure TrkPt where
  lat : Option String
  lon : Option String
deriving DecidableEq, Repr

/-- The parsed XML document as `parseGPXFile` inspects it: the document
element's node name (`none` when there is no document element), whether the
document contains a `parsererror` element, and the `trk trkseg trkpt`
elements in document order. -/
structure GpxDoc where
  rootName : Option String
  hasParserError : Bool
  trkpts : List TrkPt
deriving DecidableEq, Repr

/-- JavaScript truthiness of a `getAttribute` result: null (`none`) and the
empty string are falsy. -/
def attrTruthy : Option String → Bool
  | none => false
  | some s => !s.data.isEmpty

/-- From `parseGPXFile`'s per-point loop: `if (lat && lon)` pushes
`[parseFloat(lon), parseFloat(lat)]` — JavaScript truthiness skips the point
when either attribute is null or the empty string; the pushed pair is kept
here as the raw (lon, lat) attribute strings, with no range check of any
kind. -/
def trkptCoord (p : TrkPt) : Option (String × String) :=
  match p.lat, p.lon with
  | some la, some lo =>
    if !la.data.isEmpty && !lo.data.isEmpty then some (lo, la) else none
  | _, _ => none

/-- From `parseGPXFile` (src/frontend/src/DevApp.tsx): check the `<gpx>` root
(`!root || root.nodeName.toLowerCase() !== 'gpx'`), then a `parsererror`
element, then that trkpt elements exist, then collect the coordinate pairs in
document order and fail if none survived; otherwise return them. -/
def parseGPXFile (doc : GpxDoc) : Except String (List (String × String)) :=
  match doc.rootName with
  | none => .error "Invalid GPX file - missing <gpx> root element"
  | some n =>
    if n.data.map Char.toLower ≠ "gpx".data then
      .error "Invalid GPX file - missing <gpx> root element"
    else if doc.hasParserError then .error "Invalid GPX file - malformed XML"
    else if doc.trkpts.isEmpty then .error "Invalid GPX file - no track points found"
    else
      let pts := doc.trkpts.filterMap trkptCoord
      if pts.isEmpty then .error "Invalid GPX file - no valid coordinates found"
      else .ok pts

/-! ## Lemmas about deduplication -/

lemma dedupeGo_mem_of_mem (seen : List String) (cs : List Candidate)
    (c : Candidate) (hc : c ∈ dedupeGo seen cs) : c ∈ cs := by
  induction cs generalizing seen with
  | nil => simp [dedupeGo] at hc
  | cons d rest ih =>
    simp only [dedupeGo] at hc
    by_cases h : d.id ∈ seen
    · simp [h] at hc
      exact List.mem_cons_of_mem _ (ih _ hc)
    · simp [h] at hc
      rcases hc with hc | hc
      · simp [hc]
      · exact List.mem_cons_of_mem _ (ih _ hc)

lemma dedupeGo_pair_same_id (seen : List String) (c₁ c₂ : Candidate)
    (hid : c₁.id = c₂.id) (hseen : c₁.id ∉ seen) :
    dedupeGo seen [c₁, c₂] = [c₁] := by
  simp [dedupeGo, hseen, hid.symm]

/-! ## Lemmas about the Query Planner's walk -/

lemma walkFrom_length (total step : ℚ) (hs : 0 < step) (d : ℚ) :
    (walkFrom total step d).length = (⌈(total - d) / step⌉).toNat := by
  refine walkFrom.induct total step
    (fun d => (walkFrom total step d).length = (⌈(total - d) / step⌉).toNat)
    (fun d h ih => ?_) (fun d h => ?_) d
  · obtain ⟨-, hd⟩ := h
    rw [walkFrom, dif_pos ⟨hs, hd⟩]
    have hx : 0 < total - d := by linarith
    have hq : 0 < (total - d) / step := div_pos hx hs
    have hceil : 0 < ⌈(total - d) / step⌉ := Int.ceil_pos.mpr hq
    have heq : (total - (d + step)) / step = (total - d) / step - 1 := by
      field_simp
      ring
    simp only [List.length_cons, ih, heq, Int.ceil_sub_one]
    omega
  · show (walkFrom total step d).length = (⌈(total - d) / step⌉).toNat
    rw [walkFrom.eq_def, dif_neg h]
    have hd : total ≤ d := by
      by_contra hlt
      exact h ⟨hs, lt_of_not_le hlt⟩
    have hq : (total - d) / step ≤ 0 :=
      div_nonpos_of_nonpos_of_nonneg (by linarith) (le_of_lt hs)
    have hc : ⌈(total - d) / step⌉ ≤ 0 := by
      simpa using Int.ceil_le.mpr (by simpa using hq)
    simp [Int.toNat_of_nonpos hc]

/-- §4.2's single-point clause holds in the model: a zero-length track gets
exactly one SearchCircle, at the track's only point. -/
lemma samplePoints_single_point (step : ℚ) : samplePoints 0 step = [0] := by
  rw [samplePoints, if_pos le_rfl]

/-- §4.2's edge case holds in the model: if `stepKm ≥` track length, exactly
one SearchCircle is produced. -/
lemma samplePoints_step_ge (total step : ℚ) (hs : 0 < step)
    (hge : total ≤ step) : samplePoints total step = [0] := by
  rw [samplePoints]
  by_cases h0 : total ≤ 0
  · rw [if_pos h0]
  · rw [if_neg h0, walkFrom.eq_def,
      dif_pos ⟨hs, by linarith [lt_of_not_le h0]⟩, walkFrom.eq_def,
      dif_neg (by rintro ⟨-, hlt⟩; linarith)]

/-- §4.2's never-empty guarantee holds in the model: a valid Track always
yields at least one SearchCircle. -/
lemma samplePoints_ne_nil (total step : ℚ) (hs : 0 < step) :
    samplePoints total step ≠ [] := by
  rw [samplePoints]
  by_cases h0 : total ≤ 0
  · rw [if_pos h0]
    simp
  · rw [if_neg h0, walkFrom.eq_def, dif_pos ⟨hs, lt_of_not_le h0⟩]
    simp

lemma samplePoints_ten_six : samplePoints 10 6 = [0, 6] := by
  rw [samplePoints, if_neg (by norm_num), walkFrom.eq_def]
  norm_num
  rw [walkFrom.eq_def]
  norm_num
  rw [walkFrom.eq_def]
  norm_num

/-! ## Lemmas about the per-candidate filter evaluation -/

lemma candidateToFinding_spec (fs : FilterSet) (c : Candidate) (f : Finding)
    (h : candidateToFinding fs c = some f) :
    f.cand = c ∧
      fs.includes.find? (fun r => ruleMatches r c) = some f.matchingFilter ∧
      fs.excludes.any (fun e => ruleMatches e c) = false := by
  unfold candidateToFinding at h
  cases hfind : fs.includes.find? (fun r => ruleMatches r c) with
  | none => rw [hfind] at h; simp at h
  | some r =>
    rw [hfind] at h
    cases hex : fs.excludes.any (fun e => ruleMatches e c) with
    | true => rw [hex] at h; simp at h
    | false =>
      rw [hex] at h
      simp only [if_neg Bool.false_ne_true] at h
      obtain rfl : Finding.mk c r = f := by simpa using h
      exact ⟨rfl, rfl, rfl⟩

lemma candidateToFinding_eq_some (fs : FilterSet) (c : Candidate) (r : TagRule)
    (hfind : fs.includes.find? (fun r => ruleMatches r c) = some r)
    (hex : fs.excludes.any (fun e => ruleMatches e c) = false) :
    candidateToFinding fs c = some ⟨c, r⟩ := by
  unfold candidateToFinding
  rw [hfind, hex]
  simp

/-- `find?` returns the first element satisfying the predicate: the list
splits as `pre ++ found :: post` with the predicate false on all of `pre`. -/
lemma find?_first {α : Type} (l : List α) (p : α → Bool) (r : α)
    (h : l.find? p = some r) :
    ∃ pre post, l = pre ++ r :: post ∧ (∀ x ∈ pre, p x = false) ∧ p r = true := by
  induction l with
  | nil => simp at h
  | cons a rest ih =>
    cases hpa : p a with
    | true =>
      rw [List.find?_cons_of_pos _ hpa] at h
      obtain rfl : a = r := by simpa using h
      exact ⟨[], rest, rfl, by simp, hpa⟩
    | false =>
      rw [List.find?_cons_of_neg _ (by simp [hpa])] at h
      obtain ⟨pre, post, hsplit, hpre, hr⟩ := ih h
      exact ⟨a :: pre, post, by simp [hsplit], by simpa [hpa] using hpre, hr⟩

/-! ## Claim theorems -/

/-- C1: the Match Engine deduplicates Candidates by external identifier:
feeding it two Candidates with the same external identifier but different
tag payloads yields exactly one Finding, and the retained Finding's content
is that of the first-seen Candidate (first-seen tag content wins, as §4.4 of
the spec states for the Match Engine). -/
theorem matchEngine_dedupes_first_seen_wins (fs : FilterSet)
    (c₁ c₂ : Candidate) (f : Finding)
    (hid : c₁.id = c₂.id) (htags : c₁.tags ≠ c₂.tags)
    (hf : candidateToFinding fs c₁ = some f) :
    matchEngine fs [c₁, c₂] = [f] ∧ f.cand = c₁ := by
  have hded : dedupeByIdFirst [c₁, c₂] = [c₁] :=
    dedupeGo_pair_same_id [] c₁ c₂ hid (by simp)
  refine ⟨?_, (candidateToFinding_spec fs c₁ f hf).1⟩
  simp [matchEngine, hded, hf]

/-- C1 witness: a concrete instance — two candidates sharing identifier
`"n1"` with different tags yield exactly one Finding carrying the first
candidate's tags. -/
theorem matchEngine_dedupes_first_seen_wins_witness :
    matchEngine ⟨[⟨"amenity", "shelter"⟩], []⟩
        [⟨"n1", [("amenity", "shelter")]⟩, ⟨"n1", [("amenity", "bench")]⟩] =
      [⟨⟨"n1", [("amenity", "shelter")]⟩, ⟨"amenity", "shelter"⟩⟩] ∧
    (⟨⟨"n1", [("amenity", "shelter")]⟩, ⟨"amenity", "shelter"⟩⟩ : Finding).cand =
      ⟨"n1", [("amenity", "shelter")]⟩ :=
  matchEngine_dedupes_first_seen_wins
    ⟨[⟨"amenity", "shelter"⟩], []⟩
    ⟨"n1", [("amenity", "shelter")]⟩ ⟨"n1", [("amenity", "bench")]⟩
    ⟨⟨"n1", [("amenity", "shelter")]⟩, ⟨"amenity", "shelter"⟩⟩
    rfl (by decide) (by decide)

/-- C3: every Finding's `matchingFilter` is the first include rule in
FilterSet order whose key=value pair matches one of the Candidate's tags:
the include list splits as `pre ++ matchingFilter :: post` with no rule of
`pre` matching; concretely, with include rules `a=1` and `b=2` and a
Candidate matching both, `matchingFilter` is `a=1`. -/
theorem matchEngine_matchingFilter_is_first (fs : FilterSet)
    (cs : List Candidate) (f : Finding) (hf : f ∈ matchEngine fs cs) :
    (∃ pre post, fs.includes = pre ++ f.matchingFilter :: post ∧
        (∀ r ∈ pre, ruleMatches r f.cand = false) ∧
        ruleMatches f.matchingFilter f.cand = true) ∧
      matchEngine ⟨[⟨"a", "1"⟩, ⟨"b", "2"⟩], []⟩
          [⟨"x", [("a", "1"), ("b", "2")]⟩] =
        [⟨⟨"x", [("a", "1"), ("b", "2")]⟩, ⟨"a", "1"⟩⟩] := by
  refine ⟨?_, by decide⟩
  obtain ⟨c, _, hc⟩ := List.mem_filterMap.mp hf
  obtain ⟨hcand, hfind, -⟩ := candidateToFinding_spec fs c f hc
  subst hcand
  exact find?_first _ _ _ hfind

/-- C3 witness: the general part applied to the concrete one-rule instance. -/
theorem matchEngine_matchingFilter_is_first_witness :
    (∃ pre post,
        (FilterSet.mk [⟨"a", "1"⟩, ⟨"b", "2"⟩] []).includes =
            pre ++ (Finding.mk ⟨"x", [("a", "1"), ("b", "2")]⟩ ⟨"a", "1"⟩).matchingFilter :: post ∧
          (∀ r ∈ pre,
            ruleMatches r (Finding.mk ⟨"x", [("a", "1"), ("b", "2")]⟩ ⟨"a", "1"⟩).cand = false) ∧
          ruleMatches (Finding.mk ⟨"x", [("a", "1"), ("b", "2")]⟩ ⟨"a", "1"⟩).matchingFilter
              (Finding.mk ⟨"x", [("a", "1"), ("b", "2")]⟩ ⟨"a", "1"⟩).cand = true) ∧
      matchEngine ⟨[⟨"a", "1"⟩, ⟨"b", "2"⟩], []⟩
          [⟨"x", [("a", "1"), ("b", "2")]⟩] =
        [⟨⟨"x", [("a", "1"), ("b", "2")]⟩, ⟨"a", "1"⟩⟩] :=
  matchEngine_matchingFilter_is_first
    ⟨[⟨"a", "1"⟩, ⟨"b", "2"⟩], []⟩
    [⟨"x", [("a", "1"), ("b", "2")]⟩]
    ⟨⟨"x", [("a", "1"), ("b", "2")]⟩, ⟨"a", "1"⟩⟩
    (by decide)

/-- C4: a unique Candidate is retained in the Finding list exactly when some
include TagRule matches one of its tags and no exclude TagRule does — in
particular a Candidate matching an include rule and an exclude rule is
absent from the Findings. -/
theorem matchEngine_include_exclude (fs : FilterSet) (cs : List Candidate)
    (c : Candidate) (hc : c ∈ dedupeByIdFirst cs) :
    (∃ f ∈ matchEngine fs cs, f.cand = c) ↔
      (fs.includes.any (fun r => ruleMatches r c) = true ∧
        fs.excludes.any (fun e => ruleMatches e c) = false) := by
  constructor
  · rintro ⟨f, hf, hcand⟩
    obtain ⟨c', _, hc'⟩ := List.mem_filterMap.mp hf
    obtain ⟨hcand', hfind, hex⟩ := candidateToFinding_spec fs c' f hc'
    rw [hcand] at hcand'
    subst hcand'
    refine ⟨List.any_eq_true.mpr ?_, hex⟩
    have hsome : (fs.includes.find? (fun r => ruleMatches r c)).isSome := by
      simp [hfind]
    obtain ⟨r, hr, hpr⟩ := List.find?_isSome.mp hsome
    exact ⟨r, hr, hpr⟩
  · rintro ⟨hany, hex⟩
    have hsome : (fs.includes.find? (fun r => ruleMatches r c)).isSome :=
      List.find?_isSome.mpr (List.any_eq_true.mp hany)
    obtain ⟨r, hr⟩ := Option.isSome_iff_exists.mp hsome
    exact ⟨⟨c, r⟩, List.mem_filterMap.mpr
      ⟨c, hc, candidateToFinding_eq_some fs c r hr hex⟩, rfl⟩

/-- C4 witness: a candidate matching the include rule `a=1` and the exclude
rule `b=2` is absent from the Findings (the right-hand side of the
equivalence is false, hence no Finding for it exists). -/
theorem matchEngine_include_exclude_witness :
    ((∃ f ∈ matchEngine ⟨[⟨"a", "1"⟩], [⟨"b", "2"⟩]⟩
          [⟨"x", [("a", "1"), ("b", "2")]⟩],
        f.cand = ⟨"x", [("a", "1"), ("b", "2")]⟩) ↔
      ((FilterSet.mk [⟨"a", "1"⟩] [⟨"b", "2"⟩]).includes.any
          (fun r => ruleMatches r ⟨"x", [("a", "1"), ("b", "2")]⟩) = true ∧
        (FilterSet.mk [⟨"a", "1"⟩] [⟨"b", "2"⟩]).excludes.any
          (fun e => ruleMatches e ⟨"x", [("a", "1"), ("b", "2")]⟩) = false)) :=
  matchEngine_include_exclude ⟨[⟨"a", "1"⟩], [⟨"b", "2"⟩]⟩
    [⟨"x", [("a", "1"), ("b", "2")]⟩] ⟨"x", [("a", "1"), ("b", "2")]⟩
    (by decide)

/-- C2 counterexample: on the spec's own pinned example — a 10 km track
sampled at `stepKm = 6` — the planner (modelled from the spec's walk and its
`stepKm ≥ track length` edge case) emits the 2 sample points 0 km and 6 km,
not `⌈10 / 6⌉ + 1 = 3`; the claimed count formula is off by one. -/
theorem samplePoints_count_claim_false :
    samplePoints 10 6 = [0, 6] ∧
      (samplePoints 10 6).length ≠ (⌈(10 : ℚ) / 6⌉ + 1).toNat := by
  refine ⟨samplePoints_ten_six, ?_⟩
  rw [samplePoints_ten_six]
  have h2 : ⌈(10 : ℚ) / 6⌉ = 2 := by
    rw [Int.ceil_eq_iff] <;> norm_num
  rw [h2]
  decide

/-- C2 amended: for every valid Track and every `stepKm > 0` that is less
than the track's total length, the planner emits exactly
`⌈totalDistanceKm / stepKm⌉` sample points (one SearchCircle each): the walk
samples 0, step, 2·step, … strictly before the track end, the tail being
covered by the final circle's radius; in particular a straight 10 km track
with `stepKm = 6` yields exactly the 2 sample points 0 km and 6 km. -/
theorem samplePoints_count (total step : ℚ) (hs : 0 < step)
    (hlt : step < total) :
    (samplePoints total step).length = (⌈total / step⌉).toNat ∧
      samplePoints 10 6 = [0, 6] := by
  refine ⟨?_, samplePoints_ten_six⟩
  rw [samplePoints, if_neg (by linarith)]
  simpa using walkFrom_length total step hs 0

/-- C2 witness: the amended count applied at the spec's pinned example
(`stepKm = 6` is positive and below the 10 km track length):
`⌈10 / 6⌉.toNat = 2` sample points. -/
theorem samplePoints_count_witness :
    ((samplePoints 10 6).length = (⌈(10 : ℚ) / 6⌉).toNat ∧
      samplePoints 10 6 = [0, 6]) :=
  samplePoints_count 10 6 (by norm_num) (by norm_num)

/-! ## Lemmas about the Job run -/

lemma tryBatch_all_fail (endpoints : List Endpoint) (b : QueryBatch)
    (hfail : ∀ ep ∈ endpoints, ∀ n b', ep n b' = none) :
    ∀ m idx, tryBatch endpoints b idx m = none := by
  intro m
  induction m with
  | zero => intro idx; rfl
  | succ n ih =>
    intro idx
    rw [tryBatch]
    cases hget : endpoints.get? (idx % endpoints.length) with
    | none => rfl
    | some ep =>
      have hep := hfail ep (List.get?_mem hget) idx b
      simp [hep, ih]

/-- Every snapshot `runLoop` publishes is a plain processing update, the
completed Job (findings, no error, 100 %), or the failed Job (no findings,
a `RemoteServiceUnavailableError`). -/
lemma runLoop_snapshot_shape (endpoints : List Endpoint) (m total : ℕ)
    (fs : FilterSet) :
    ∀ bs done acc j, j ∈ runLoop endpoints m total fs bs done acc →
      (j.state = .processing ∧ j.findings = none ∧ j.error = none) ∨
        (j.state = .completed ∧ (∃ fl, j.findings = some fl) ∧
          j.error = none ∧ j.progressPercent = 100) ∨
        (j.state = .failed ∧ j.findings = none ∧
          j.error = some .remoteServiceUnavailable) := by
  intro bs
  induction bs with
  | nil =>
    intro done acc j hj
    simp only [runLoop, List.mem_singleton] at hj
    subst hj
    exact Or.inr (Or.inl ⟨rfl, ⟨_, rfl⟩, rfl, rfl⟩)
  | cons b rest ih =>
    intro done acc j hj
    rw [runLoop] at hj
    cases htry : tryBatch endpoints b done m with
    | none =>
      rw [htry] at hj
      simp only [List.mem_singleton] at hj
      subst hj
      exact Or.inr (Or.inr ⟨rfl, rfl, rfl⟩)
    | some cs =>
      rw [htry] at hj
      rcases List.mem_cons.mp hj with hj | hj
      · subst hj
        exact Or.inl ⟨rfl, rfl, rfl⟩
      · exact ih (done + 1) (acc ++ cs) j hj

/-- The state sequence `runLoop` publishes is a block of `processing`
snapshots closed by a single terminal state. -/
lemma runLoop_states (endpoints : List Endpoint) (m total : ℕ)
    (fs : FilterSet) :
    ∀ bs done acc, ∃ k t,
      (runLoop endpoints m total fs bs done acc).map Job.state =
        List.replicate k JobState.processing ++ [t] ∧
      (t = JobState.completed ∨ t = JobState.failed) := by
  intro bs
  induction bs with
  | nil =>
    intro done acc
    exact ⟨0, .completed, by simp [runLoop], Or.inl rfl⟩
  | cons b rest ih =>
    intro done acc
    rw [runLoop]
    cases htry : tryBatch endpoints b done m with
    | none => exact ⟨0, .failed, by simp, Or.inr rfl⟩
    | some cs =>
      obtain ⟨k, t, hmap, ht⟩ := ih (done + 1) (acc ++ cs)
      exact ⟨k + 1, t, by simp [hmap, List.replicate_succ], ht⟩

lemma pct_le_100 (done total : ℕ) (h : done ≤ total) :
    done * 100 / total ≤ 100 := by
  cases Nat.eq_zero_or_pos total with
  | inl h0 => simp [h0]
  | inr hpos =>
    calc done * 100 / total ≤ total * 100 / total :=
          Nat.div_le_div_right (Nat.mul_le_mul_right 100 h)
      _ = 100 := Nat.mul_div_cancel_left 100 hpos

/-- The percent sequence `runLoop` publishes, preceded by the percent of the
last snapshot already published, is non-decreasing. -/
lemma runLoop_percents_chain (endpoints : List Endpoint) (m total : ℕ)
    (fs : FilterSet) :
    ∀ bs done acc, done + bs.length = total →
      List.Chain' (· ≤ ·)
        ((Job.mk .processing (done * 100 / total) none none ::
          runLoop endpoints m total fs bs done acc).map Job.progressPercent) := by
  intro bs
  induction bs with
  | nil =>
    intro done acc hlen
    simp only [List.length_nil, Nat.add_zero] at hlen
    subst hlen
    simp only [runLoop, List.map_cons, List.map_nil]
    exact List.chain'_cons.mpr ⟨pct_le_100 done done le_rfl, List.chain'_singleton _⟩
  | cons b rest ih =>
    intro done acc hlen
    rw [runLoop]
    cases htry : tryBatch endpoints b done m with
    | none =>
      simp only [List.map_cons, List.map_nil]
      exact List.chain'_cons.mpr ⟨le_rfl, List.chain'_singleton _⟩
    | some cs =>
      have hstep : done * 100 / total ≤ (done + 1) * 100 / total :=
        Nat.div_le_div_right (Nat.mul_le_mul_right 100 (Nat.le_succ done))
      have hrest := ih (done + 1) (acc ++ cs) (by simpa [Nat.add_comm, Nat.add_left_comm] using hlen)
      simp only [List.map_cons] at hrest ⊢
      exact List.chain'_cons.mpr ⟨hstep, hrest⟩

/-! ## Claim theorems about the Job lifecycle -/

/-- C5: when every configured endpoint fails on every attempt, the run fails
the entire job: the final published snapshot is `failed` and carries
`RemoteServiceUnavailableError` (the batch is not silently skipped), and no
snapshot of the failed job ever claims 100 % progress. -/
theorem runJob_all_endpoints_fail (endpoints : List Endpoint) (maxRetries : ℕ)
    (fs : FilterSet) (batches : List QueryBatch)
    (hbs : batches ≠ [])
    (hfail : ∀ ep ∈ endpoints, ∀ n b, ep n b = none) :
    (∃ j, (runJob endpoints maxRetries fs batches).getLast? = some j ∧
        j.state = .failed ∧ j.error = some .remoteServiceUnavailable) ∧
      ∀ j ∈ runJob endpoints maxRetries fs batches, j.progressPercent ≠ 100 := by
  obtain ⟨b, rest, rfl⟩ := List.exists_cons_of_ne_nil hbs
  have hrun : runJob endpoints maxRetries fs (b :: rest) =
      [⟨.queued, 0, none, none⟩, ⟨.processing, 0, none, none⟩,
        ⟨.failed, 0, none, some .remoteServiceUnavailable⟩] := by
    rw [runJob, runLoop, tryBatch_all_fail endpoints b hfail maxRetries 0]
    simp
  rw [hrun]
  refine ⟨⟨_, rfl, rfl, rfl⟩, ?_⟩
  intro j hj
  simp only [List.mem_cons, List.not_mem_nil, or_false] at hj
  rcases hj with rfl | rfl | rfl
  all_goals simp

/-- C5 witness: one batch, one endpoint that always fails, `maxRetries = 3`. -/
theorem runJob_all_endpoints_fail_witness :
    ((∃ j, (runJob [fun _ _ => none] 3 ⟨[], []⟩ [[]]).getLast? = some j ∧
        j.state = .failed ∧ j.error = some .remoteServiceUnavailable) ∧
      ∀ j ∈ runJob [fun _ _ => none] 3 ⟨[], []⟩ [[]], j.progressPercent ≠ 100) :=
  runJob_all_endpoints_fail [fun _ _ => none] 3 ⟨[], []⟩ [[]]
    (by simp) (by intro ep hep n b; simp only [List.mem_singleton] at hep; subst hep; rfl)

/-- C6: every terminal snapshot a Job run publishes carries exactly one of a
Finding list or an error description — never both and never neither — and a
failed snapshot exposes no Finding list at all. -/
theorem runJob_terminal_exactly_one (endpoints : List Endpoint)
    (maxRetries : ℕ) (fs : FilterSet) (batches : List QueryBatch)
    (j : Job) (hj : j ∈ runJob endpoints maxRetries fs batches)
    (hterm : j.state = .completed ∨ j.state = .failed) :
    ((∃ fl, j.findings = some fl) ↔ j.error = none) ∧
      (j.state = .failed → j.findings = none) := by
  rw [runJob] at hj
  simp only [List.mem_cons] at hj
  rcases hj with rfl | rfl | hj
  · simp at hterm
  · simp at hterm
  · rcases runLoop_snapshot_shape endpoints maxRetries batches.length fs
        batches 0 [] j hj with ⟨hs, -, -⟩ | ⟨hs, hfl, herr, -⟩ | ⟨hs, hfl, herr⟩
    · rw [hs] at hterm; simp at hterm
    · rw [herr]
      exact ⟨⟨fun _ => rfl, fun _ => hfl⟩, fun hfailed => by rw [hs] at hfailed; simp at hfailed⟩
    · rw [herr, hfl]
      refine ⟨⟨fun h => by simp at h, ?_⟩, fun _ => rfl⟩
      intro h
      simp at h

/-- C6 witness: the completed snapshot of a run with no batches carries a
Finding list and no error. -/
theorem runJob_terminal_exactly_one_witness :
    (⟨.completed, 100, some [], none⟩ : Job) ∈ runJob [] 0 ⟨[], []⟩ [] ∧
      ((∃ fl, (Job.mk .completed 100 (some []) none).findings = some fl) ↔
        (Job.mk .completed 100 (some []) none).error = none) ∧
      ((Job.mk .completed 100 (some []) none).state = .failed →
        (Job.mk .completed 100 (some []) none).findings = none) := by
  have hmem : (⟨.completed, 100, some [], none⟩ : Job) ∈ runJob [] 0 ⟨[], []⟩ [] := by
    simp [runJob, runLoop, matchEngine, dedupeByIdFirst, dedupeGo]
  exact ⟨hmem, runJob_terminal_exactly_one [] 0 ⟨[], []⟩ [] _ hmem (Or.inl rfl)⟩

/-- C7: over a Job's published lifetime the state only moves along
`queued → processing → completed` or `queued → processing → failed`: every
adjacent pair of snapshots either keeps the state or takes one allowed
transition, and a terminal state occurs only as the last snapshot (once
terminal the state never changes again). -/
theorem runJob_state_machine (endpoints : List Endpoint) (maxRetries : ℕ)
    (fs : FilterSet) (batches : List QueryBatch) :
    List.Chain' (fun a b => a = b ∨ stepOk a b = true)
        ((runJob endpoints maxRetries fs batches).map Job.state) ∧
      ∀ s ∈ ((runJob endpoints maxRetries fs batches).map Job.state).dropLast,
        s ≠ JobState.completed ∧ s ≠ JobState.failed := by
  obtain ⟨k, t, hmap, ht⟩ :=
    runLoop_states endpoints maxRetries batches.length fs batches 0 []
  have hstates : (runJob endpoints maxRetries fs batches).map Job.state =
      JobState.queued :: JobState.processing ::
        (List.replicate k JobState.processing ++ [t]) := by
    simp [runJob, hmap]
  have hchainRep : ∀ n, List.Chain' (fun a b => a = b ∨ stepOk a b = true)
      (JobState.processing :: (List.replicate n JobState.processing ++ [t])) := by
    intro n
    induction n with
    | zero =>
      refine List.chain'_cons.mpr ⟨Or.inr ?_, List.chain'_singleton _⟩
      rcases ht with rfl | rfl <;> rfl
    | succ n ihn =>
      rw [List.replicate_succ, List.cons_append]
      exact List.chain'_cons.mpr ⟨Or.inl rfl, ihn⟩
  constructor
  · rw [hstates]
    exact List.chain'_cons.mpr ⟨Or.inr rfl, hchainRep k⟩
  · intro s hs
    rw [hstates] at hs
    have hconcat : JobState.queued :: JobState.processing ::
        (List.replicate k JobState.processing ++ [t]) =
        (JobState.queued :: JobState.processing ::
          List.replicate k JobState.processing) ++ [t] := by
      simp
    rw [hconcat, List.dropLast_concat] at hs
    simp only [List.mem_cons] at hs
    rcases hs with rfl | rfl | hs
    · exact ⟨by simp, by simp⟩
    · exact ⟨by simp, by simp⟩
    · have := List.eq_of_mem_replicate hs
      subst this; exact ⟨by simp, by simp⟩

/-- C7 witness: the state-machine property at a concrete run (one endpoint,
no batches). -/
theorem runJob_state_machine_witness :
    List.Chain' (fun a b => a = b ∨ stepOk a b = true)
        ((runJob [] 0 ⟨[], []⟩ []).map Job.state) ∧
      ∀ s ∈ ((runJob [] 0 ⟨[], []⟩ []).map Job.state).dropLast,
        s ≠ JobState.completed ∧ s ≠ JobState.failed :=
  runJob_state_machine [] 0 ⟨[], []⟩ []

/-- C8: the sequence of `progressPercent` values published over a Job's
lifetime — updated at each QueryBatch completion — is monotonically
non-decreasing. -/
theorem runJob_progress_monotone (endpoints : List Endpoint) (maxRetries : ℕ)
    (fs : FilterSet) (batches : List QueryBatch) :
    List.Chain' (· ≤ ·)
      ((runJob endpoints maxRetries fs batches).map Job.progressPercent) := by
  have h := runLoop_percents_chain endpoints maxRetries batches.length fs
    batches 0 [] (by simp)
  simp only [List.map_cons, Nat.zero_mul, Nat.zero_div] at h
  rw [runJob]
  simp only [List.map_cons]
  exact List.chain'_cons.mpr ⟨le_rfl, h⟩

/-- C8 witness: the monotone-progress property at a concrete run. -/
theorem runJob_progress_monotone_witness :
    List.Chain' (· ≤ ·)
      ((runJob [] 0 ⟨[], []⟩ []).map Job.progressPercent) :=
  runJob_progress_monotone [] 0 ⟨[], []⟩ []

/-! ## Lemmas about splitting and the GPX point extraction -/

lemma splitOnChar_ne_nil (sep : Char) : ∀ l, splitOnChar sep l ≠ [] := by
  intro l
  induction l with
  | nil => simp [splitOnChar]
  | cons a rest ih =>
    rw [splitOnChar]
    cases hs : splitOnChar sep rest with
    | nil => simp
    | cons g gs =>
      by_cases ha : a = sep <;> simp [ha]

lemma splitOnChar_length_ge_two (sep : Char) :
    ∀ l : List Char, l.contains sep = true → 2 ≤ (splitOnChar sep l).length := by
  intro l
  induction l with
  | nil => intro h; simp at h
  | cons a rest ih =>
    intro h
    rw [splitOnChar]
    cases hs : splitOnChar sep rest with
    | nil => exact absurd hs (splitOnChar_ne_nil sep rest)
    | cons g gs =>
      by_cases ha : a = sep
      · simp [ha]
      · have hrest : rest.contains sep = true := by
          simp only [List.contains_cons] at h
          rcases Bool.or_eq_true_iff.mp h with h1 | h1
          · exact absurd (beq_iff_eq.mp h1).symm ha
          · exact h1
        have := ih hrest
        rw [hs] at this
        simpa [ha] using this

lemma parseGPXFile_run_badRoot (n : String) (herr : Bool) (tps : List TrkPt)
    (hg : ¬n.data.map Char.toLower = "gpx".data) :
    parseGPXFile ⟨some n, herr, tps⟩ =
      .error "Invalid GPX file - missing <gpx> root element" := by
  simp [parseGPXFile, hg]

lemma parseGPXFile_run_malformed (n : String) (tps : List TrkPt)
    (hg : n.data.map Char.toLower = "gpx".data) :
    parseGPXFile ⟨some n, true, tps⟩ =
      .error "Invalid GPX file - malformed XML" := by
  simp [parseGPXFile, hg]

lemma parseGPXFile_run_noTrkpt (n : String)
    (hg : n.data.map Char.toLower = "gpx".data) :
    parseGPXFile ⟨some n, false, []⟩ =
      .error "Invalid GPX file - no track points found" := by
  simp [parseGPXFile, hg]

lemma parseGPXFile_run_noValid (n : String) (tps : List TrkPt)
    (hg : n.data.map Char.toLower = "gpx".data) (htp : tps ≠ [])
    (hpts : tps.filterMap trkptCoord = []) :
    parseGPXFile ⟨some n, false, tps⟩ =
      .error "Invalid GPX file - no valid coordinates found" := by
  simp [parseGPXFile, hg, htp, hpts]

lemma parseGPXFile_run_ok (n : String) (tps : List TrkPt)
    (hg : n.data.map Char.toLower = "gpx".data) (htp : tps ≠ [])
    (hpts : tps.filterMap trkptCoord ≠ []) :
    parseGPXFile ⟨some n, false, tps⟩ = .ok (tps.filterMap trkptCoord) := by
  simp [parseGPXFile, hg, htp, hpts]

lemma trkptCoord_isSome (p : TrkPt) :
    (trkptCoord p).isSome = (attrTruthy p.lat && attrTruthy p.lon) := by
  rcases p with ⟨la, lo⟩
  cases la <;> cases lo <;> simp [trkptCoord, attrTruthy]
  rename_i la lo
  cases hc : (!la.data.isEmpty && !lo.data.isEmpty) <;> simp_all

/-! ## Claim theorems about the frontend validation and GPX parsing -/

/-- C9 counterexample: the SettingsForm path accepts the rule `foo`, which
does not split into one `key=value` pair, and the filter-modal path accepts
`a=b=c`, which splits into three fragments instead of two — so not every
accepted raw rule string splits into exactly one `key=value` pair. -/
theorem filterRuleValidation_claim_counterexample :
    handleAddFilterAccepts (some "foo") = true ∧
      splitsIntoOneKeyValue "foo" = false ∧
      addCustomAccepts "a=b=c" = true ∧
      splitsIntoOneKeyValue "a=b=c" = false := by
  refine ⟨rfl, by decide, by decide, by decide⟩

/-- C9 amended: the filter modal's `addCustom` accepts a raw rule exactly
when its trimmed text is non-empty and contains `=` — so every rule it
accepts splits into at least two fragments (at least one `key=value` pair),
but strings with several `=` pass too; the SettingsForm's `handleAddFilter`
accepts any non-empty prompt answer with no format check at all. -/
theorem filterRuleValidation_amended :
    (∀ s : String, addCustomAccepts s = true ↔
        ((jsTrim s.data).isEmpty = false ∧ (jsTrim s.data).contains '=' = true)) ∧
      (∀ s : String, addCustomAccepts s = true →
        2 ≤ (splitOnChar '=' (jsTrim s.data)).length) ∧
      (∀ v : String, handleAddFilterAccepts (some v) = true ↔
        v.data.isEmpty = false) ∧
      handleAddFilterAccepts none = false := by
  refine ⟨?_, ?_, ?_, rfl⟩
  · intro s
    simp [addCustomAccepts]
  · intro s hacc
    have hcont : (jsTrim s.data).contains '=' = true := by
      have := (Bool.and_eq_true _ _).mp hacc
      exact this.2
    exact splitOnChar_length_ge_two '=' _ hcont
  · intro v
    simp [handleAddFilterAccepts]

/-- C9 witness: the well-formed rule `a=1` is accepted by `addCustom` and its
trimmed text indeed splits into at least two fragments. -/
theorem filterRuleValidation_amended_witness :
    addCustomAccepts "a=1" = true ∧
      2 ≤ (splitOnChar '=' (jsTrim "a=1".data)).length :=
  ⟨by decide, filterRuleValidation_amended.2.1 "a=1" (by decide)⟩

/-- C10 counterexample: a document with a `<gpx>` root, well-formed XML, one
trkpt element, and both `lat` and `lon` attributes present (lat is the empty
string) — none of the claim's four throw conditions holds, yet `parseGPXFile`
throws, because JavaScript truthiness also rejects present-but-empty
attribute values. -/
theorem parseGPXFile_claim_counterexample :
    (∀ p ∈ (GpxDoc.mk (some "gpx") false [⟨some "", some "5"⟩]).trkpts,
        p.lat ≠ none ∧ p.lon ≠ none) ∧
      parseGPXFile ⟨some "gpx", false, [⟨some "", some "5"⟩]⟩ =
        .error "Invalid GPX file - no valid coordinates found" := by
  refine ⟨by decide, ?_⟩
  exact parseGPXFile_run_noValid "gpx" [⟨some "", some "5"⟩]
    (by decide) (by simp) (by decide)

/-- C10 amended: `parseGPXFile` returns the non-empty list of (lon, lat)
attribute pairs in document order exactly when the document element is named
`gpx` (case-insensitively), the XML parsed without a `parsererror`, trkpt
elements exist, and some trkpt carries both `lat` and `lon` attributes with
non-empty values; it performs no longitude/latitude range check, so a track
point with latitude `999` is accepted. -/
theorem parseGPXFile_spec (doc : GpxDoc) :
    ((∃ pts, parseGPXFile doc = .ok pts) ↔
        ((∃ n, doc.rootName = some n ∧ n.data.map Char.toLower = "gpx".data) ∧
          doc.hasParserError = false ∧ doc.trkpts ≠ [] ∧
          ∃ p ∈ doc.trkpts, (attrTruthy p.lat && attrTruthy p.lon) = true)) ∧
      (∀ pts, parseGPXFile doc = .ok pts →
        pts = doc.trkpts.filterMap trkptCoord ∧ pts ≠ []) ∧
      parseGPXFile ⟨some "gpx", false, [⟨some "999", some "8.5"⟩]⟩ =
        .ok [("8.5", "999")] := by
  have hsome : ∀ tps : List TrkPt, tps.filterMap trkptCoord ≠ [] ↔
      ∃ p ∈ tps, (attrTruthy p.lat && attrTruthy p.lon) = true := by
    intro tps
    rw [Ne, List.filterMap_eq_nil_iff]
    constructor
    · intro hne
      push_neg at hne
      obtain ⟨p, hp, hcp⟩ := hne
      refine ⟨p, hp, ?_⟩
      rw [← trkptCoord_isSome]
      exact Option.isSome_iff_ne_none.mpr hcp
    · rintro ⟨p, hp, htr⟩ hall
      have := hall p hp
      rw [← trkptCoord_isSome, this] at htr
      simp at htr
  refine ⟨?_, ?_, ?_⟩
  · rcases doc with ⟨root, herr, tps⟩
    cases root with
    | none =>
      simp only [parseGPXFile]
      constructor
      · rintro ⟨pts, hpts⟩
        simp at hpts
      · rintro ⟨⟨n, hn, -⟩, -⟩
        simp at hn
    | some n =>
      by_cases hg : n.data.map Char.toLower = "gpx".data
      · cases herr with
        | true =>
          rw [parseGPXFile_run_malformed n tps hg]
          constructor
          · rintro ⟨pts, hpts⟩
            simp at hpts
          · rintro ⟨-, habs, -⟩
            simp at habs
        | false =>
          cases tps with
          | nil =>
            rw [parseGPXFile_run_noTrkpt n hg]
            constructor
            · rintro ⟨pts, hpts⟩
              simp at hpts
            · rintro ⟨-, -, habs, -⟩
              simp at habs
          | cons q qs =>
            by_cases hpts : (q :: qs).filterMap trkptCoord = []
            · rw [parseGPXFile_run_noValid n (q :: qs) hg (by simp) hpts]
              constructor
              · rintro ⟨pts, hpts'⟩
                simp at hpts'
              · rintro ⟨-, -, -, hex⟩
                exact absurd ((hsome (q :: qs)).mpr hex) (by simpa using hpts)
            · rw [parseGPXFile_run_ok n (q :: qs) hg (by simp) hpts]
              constructor
              · intro _
                exact ⟨⟨n, rfl, hg⟩, rfl, by simp, (hsome (q :: qs)).mp hpts⟩
              · intro _
                exact ⟨_, rfl⟩
      · rw [parseGPXFile_run_badRoot n herr tps hg]
        constructor
        · rintro ⟨pts, hpts⟩
          simp at hpts
        · rintro ⟨⟨n', hn', hlow⟩, -⟩
          obtain rfl : n = n' := by simpa using hn'
          exact absurd hlow hg
  · intro pts hok
    rcases doc with ⟨root, herr, tps⟩
    cases root with
    | none => simp [parseGPXFile] at hok
    | some n =>
      by_cases hg : n.data.map Char.toLower = "gpx".data
      · cases herr with
        | true => rw [parseGPXFile_run_malformed n tps hg] at hok; simp at hok
        | false =>
          cases tps with
          | nil => rw [parseGPXFile_run_noTrkpt n hg] at hok; simp at hok
          | cons q qs =>
            by_cases hpts : (q :: qs).filterMap trkptCoord = []
            · rw [parseGPXFile_run_noValid n (q :: qs) hg (by simp) hpts] at hok
              simp at hok
            · rw [parseGPXFile_run_ok n (q :: qs) hg (by simp) hpts] at hok
              obtain rfl : (q :: qs).filterMap trkptCoord = pts := by simpa using hok
              exact ⟨rfl, hpts⟩
      · rw [parseGPXFile_run_badRoot n herr tps hg] at hok
        simp at hok
  · rw [parseGPXFile_run_ok "gpx" [⟨some "999", some "8.5"⟩] (by decide)
      (by simp) (by decide)]
    exact congrArg Except.ok (by decide)

/-- C10 witness: the success-shape part applied to the concrete document
whose single trkpt has latitude `999` — accepted, in document order,
non-empty. -/
theorem parseGPXFile_spec_witness :
    [("8.5", "999")] =
        (GpxDoc.mk (some "gpx") false
            [⟨some "999", some "8.5"⟩]).trkpts.filterMap trkptCoord ∧
      ([("8.5", "999")] : List (String × String)) ≠ [] :=
  (parseGPXFile_spec ⟨some "gpx", false, [⟨some "999", some "8.5"⟩]⟩).2.1
    [("8.5", "999")]
    (parseGPXFile_spec ⟨some "gpx", false, [⟨some "999", some "8.5"⟩]⟩).2.2

end WhatsAround
